import Mathlib

/-!
# rancher-exec: the interactive terminal bridge of `main.go`

A shallow embedding of the parts of `main.go` that bridge the local terminal
to the container's websocket: the base64 framing used by `wsWrite` and
`wsRead`, the exit-marker extraction of `wsRead`, the terminal-mode handling of
`SetRawtty` and `Run`, the rendezvous on `errChn`, and `formatUrl`.

Go strings and byte slices are lists of bytes.  The Go standard library
functions the program calls (`encoding/base64`, `bufio.Scanner`,
`strconv.Atoi`, `strings.Contains`) and `websocket.IsCloseError` are embedded
from their library sources, for a 64-bit platform.
-/

namespace RancherExec

/-! ## Bytes and strings -/

/-- A Go `byte`. -/
abbrev Byte := Fin 256

/-- The bytes of an ASCII string literal. -/
def ascii (s : String) : List Byte := s.toList.map (fun c => Fin.ofNat c.toNat)

/-- The byte `'\n'`. -/
def LF : Byte := 10

/-- The byte `'\r'`. -/
def CR : Byte := 13

/-! ## `encoding/base64`, `StdEncoding` -/

/-- The alphabet `encodeStd` of `base64.StdEncoding`. -/
def encodeStd : List Byte :=
  ascii "ABCDEFGHIJKLMNOPQRSTUVWXYZabcdefghijklmnopqrstuvwxyz0123456789+/"

/-- The padding character `StdPadding`, `'='`. -/
def padChar : Byte := 61

/-- The table lookup `enc.encode[i]`. -/
def encodeSym (i : Nat) : Byte := encodeStd.getD i 0

/-- The table `enc.decodeMap`: the index of a byte in the alphabet, `0xff` for
a byte outside it. -/
def decodeMap (c : Byte) : Nat :=
  if encodeStd.indexOf c < 64 then encodeStd.indexOf c else 0xff

/-- The body of `Encoding.Encode`: full groups of three bytes give four
symbols; a remainder of one or two bytes gives two or three symbols and is
padded with `'='` to four. -/
def Encode : List Byte → List Byte
  | a :: b :: c :: rest =>
    let val := a.val <<< 16 ||| b.val <<< 8 ||| c.val
    encodeSym (val >>> 18 &&& 0x3F) :: encodeSym (val >>> 12 &&& 0x3F) ::
      encodeSym (val >>> 6 &&& 0x3F) :: encodeSym (val &&& 0x3F) :: Encode rest
  | [a, b] =>
    let val := a.val <<< 16 ||| b.val <<< 8
    [encodeSym (val >>> 18 &&& 0x3F), encodeSym (val >>> 12 &&& 0x3F),
      encodeSym (val >>> 6 &&& 0x3F), padChar]
  | [a] =>
    let val := a.val <<< 16
    [encodeSym (val >>> 18 &&& 0x3F), encodeSym (val >>> 12 &&& 0x3F), padChar, padChar]
  | [] => []

/-- The call `base64.StdEncoding.EncodeToString(src)`. -/
def EncodeToString (src : List Byte) : List Byte := Encode src

/-- The bytes a quantum of `dlen` symbols yields (`dlen - 1` of them): the
conversion at the end of `decodeQuantum`.  `StdEncoding` is not strict, so the
unused low bits are not checked. -/
def quantumBytes (dlen d0 d1 d2 d3 : Nat) : List Byte :=
  let val := d0 <<< 18 ||| d1 <<< 12 ||| d2 <<< 6 ||| d3
  let b0 : Byte := Fin.ofNat (val >>> 16)
  let b1 : Byte := Fin.ofNat (val >>> 8)
  let b2 : Byte := Fin.ofNat (val >>> 0)
  match dlen with
  | 4 => [b0, b1, b2]
  | 3 => [b0, b1]
  | 2 => [b0]
  | _ => []

/-- The loops `for si < len(src) && (src[si] == '\n' || src[si] == '\r')` of
`decodeQuantum`: the input left and the index reached. -/
def skipNewlines : List Byte → Nat → List Byte × Nat
  | [], si => ([], si)
  | c :: rest, si => if c = LF ∨ c = CR then skipNewlines rest (si + 1) else (c :: rest, si)

/-- What `decodeQuantum` does once it has read a `'='` as symbol `j` of a
quantum (`si` is the index after that `'='`): the bytes of the quantum and the
error, a `CorruptInputError` offset. -/
def decodePadding (j d0 d1 : Nat) (d2 : Nat) (rest : List Byte) (si : Nat) :
    List Byte × Option Nat :=
  match j with
  | 0 => ([], some (si - 1))
  | 1 => ([], some (si - 1))
  | 2 =>
    match skipNewlines rest si with
    | ([], si1) => ([], some si1)
    | (c :: rest1, si1) =>
      if c ≠ padChar then ([], some (si1 - 1))
      else
        match skipNewlines rest1 (si1 + 1) with
        | ([], _) => (quantumBytes 2 d0 d1 d2 0, none)
        | (_ :: _, si2) => (quantumBytes 2 d0 d1 d2 0, some si2)
  | _ =>
    match skipNewlines rest si with
    | ([], _) => (quantumBytes j d0 d1 d2 0, none)
    | (_ :: _, si2) => (quantumBytes j d0 d1 d2 0, some si2)

/-- The loop of `Encoding.Decode` with `decodeQuantum` inlined, over the input
left at index `si`: `j` symbols `d0 d1 d2` of the current quantum are read and
`acc` is decoded so far.  A symbol of the alphabet is stored (the fourth one
ends the quantum), a newline character is skipped, any other byte but `'='` is
a `CorruptInputError`, and `'='` goes to the padding; at the end of the input
a quantum that has begun is an error.  The fast paths of `Decode` for four and
eight symbols at once decode as this loop does.  The result is the decoded
bytes and the error. -/
def decodeLoop : List Byte → (si j d0 d1 d2 : Nat) → (acc : List Byte) → List Byte × Option Nat
  | [], si, j, _, _, _, acc => if j = 0 then (acc, none) else (acc, some (si - j))
  | c :: rest, si, j, d0, d1, d2, acc =>
    if decodeMap c ≠ 0xff then
      match j with
      | 0 => decodeLoop rest (si + 1) 1 (decodeMap c) 0 0 acc
      | 1 => decodeLoop rest (si + 1) 2 d0 (decodeMap c) 0 acc
      | 2 => decodeLoop rest (si + 1) 3 d0 d1 (decodeMap c) acc
      | _ => decodeLoop rest (si + 1) 0 0 0 0 (acc ++ quantumBytes 4 d0 d1 d2 (decodeMap c))
    else if c = LF ∨ c = CR then decodeLoop rest (si + 1) j d0 d1 d2 acc
    else if c ≠ padChar then (acc, some si)
    else
      let r := decodePadding j d0 d1 d2 rest (si + 1)
      (acc ++ r.1, r.2)

/-- A byte `decodeQuantum` neither decodes nor skips: not a symbol of the
alphabet, not a newline character, not `'='`. -/
def foreignByte (c : Byte) : Prop :=
  decodeMap c = 0xff ∧ c ≠ LF ∧ c ≠ CR ∧ c ≠ padChar

instance : DecidablePred foreignByte := fun c => by
  unfold foreignByte
  infer_instance

/-- Whether a byte is a symbol of the alphabet: `enc.decodeMap[c] != 0xff`. -/
def isSymbol (c : Byte) : Bool := decide (decodeMap c ≠ 0xff)

/-- The text without the newline characters `'\r'` and `'\n'`, which
`decodeQuantum` skips. -/
def stripNewlines (s : List Byte) : List Byte :=
  s.filter (fun c => !decide (c = LF ∨ c = CR))

/-- Padded base64 text: groups of four symbols of the alphabet, the last group
possibly two symbols and `"=="` or three symbols and `"="`.  The unused low
bits of the symbol before the padding are not looked at. -/
def paddedShape : List Byte → Bool
  | [] => true
  | a :: b :: c :: d :: rest =>
    isSymbol a && isSymbol b &&
      ((isSymbol c && isSymbol d && paddedShape rest) ||
        (rest.isEmpty && d == padChar && (isSymbol c || c == padChar)))
  | _ => false

/-- The call `base64.StdEncoding.DecodeString(s)`: the decoded bytes and the
error (`none` is `nil`, `some off` is `CorruptInputError(off)`). -/
def DecodeString (s : List Byte) : List Byte × Option Nat := decodeLoop s 0 0 0 0 0 []

/-! ## `bufio.Scanner` with `ScanLines`, and `strconv.Atoi` -/

/-- The constant `bufio.MaxScanTokenSize`: a line that does not fit the
scanner's buffer of this size ends the scan with `ErrTooLong`. -/
def MaxScanTokenSize : Nat := 64 * 1024

/-- The helper `dropCR` of `bufio`: drops one trailing `'\r'`. -/
def dropCR (data : List Byte) : List Byte :=
  if data.getLast? = some CR then data.dropLast else data

/-- The tokens `scanner.Scan()` yields over the input left, `cur` being the
bytes of the current line read so far: a line ends at `'\n'`; the bytes after
the last `'\n'` are a line when there are any; a line of `MaxScanTokenSize`
bytes or more stops the scan. -/
def scanTokens : List Byte → (cur : List Byte) → List (List Byte)
  | [], cur =>
    if cur = [] then [] else if cur.length < MaxScanTokenSize then [dropCR cur] else []
  | c :: rest, cur =>
    if c = LF then
      if cur.length < MaxScanTokenSize then dropCR cur :: scanTokens rest [] else []
    else scanTokens rest (cur ++ [c])

/-- The loop `for scanner.Scan() { lastline = scanner.Text() }` of `wsRead`,
started with `lastline` empty. -/
def scanLastLine (out : List Byte) : List Byte :=
  (scanTokens out []).foldl (fun _ text => text) []

/-- The digit loop of `strconv.ParseUint` in base 10. -/
def parseDigits : List Byte → Nat → Option Nat
  | [], n => some n
  | c :: rest, n =>
    if 48 ≤ c.val ∧ c.val ≤ 57 then parseDigits rest (n * 10 + (c.val - 48)) else none

/-- The call `strconv.Atoi(s)` with a 64-bit `int`: an optional sign and at
least one decimal digit, the value within the range of `int`; `none` is a
non-nil error (syntax or range). -/
def Atoi (s : List Byte) : Option Int :=
  match s with
  | [] => none
  | c :: rest =>
    let neg := decide (c = 45)
    let digits := if c = 43 ∨ c = 45 then rest else s
    if digits = [] then none
    else
      match parseDigits digits 0 with
      | none => none
      | some un =>
        if neg then (if un ≤ 2 ^ 63 then some (-(un : Int)) else none)
        else (if un < 2 ^ 63 then some (un : Int) else none)

/-! ## The websocket connection -/

/-- An error of `SocketConn.ReadMessage` or `SocketConn.WriteMessage`: a
`*websocket.CloseError` with its code, or any other error. -/
inductive ConnError where
  | closeError (code : Int)
  | other (id : Nat)
  deriving DecidableEq, Repr

/-- The constant `websocket.CloseNormalClosure`. -/
def CloseNormalClosure : Int := 1000

/-- The function `websocket.IsCloseError(err, codes...)`. -/
def IsCloseError (err : ConnError) (codes : List Int) : Bool :=
  match err with
  | .closeError code => codes.contains code
  | .other _ => false

/-- A non-nil error value sent on `errChn`. -/
inductive SessionErr where
  | conn (e : ConnError)
  | decode (off : Nat)
  | stdin (id : Nat)
  deriving DecidableEq, Repr

/-- How `wsRead` ends: `os.Exit(code)`, `panic(err)` on the last line that
`Atoi` rejects, or a send of `err` on `errChn` followed by `return`. -/
inductive FlowEnd where
  | exit (code : Int)
  | panicked (lastline : List Byte)
  | report (err : Option SessionErr)
  deriving DecidableEq, Repr

/-- How `wsWrite` ends: `break` at `io.EOF` without a send on `errChn`, or a
send of `err` on `errChn` followed by `return`. -/
inductive WriteEnd where
  | silent
  | report (err : Option SessionErr)
  deriving DecidableEq, Repr

/-! ## `WebTerm.wsRead` -/

/-- The branch of `wsRead` taken when `ReadMessage` fails with a normal
closure, `out` holding what the variable `out` holds then. -/
def closeOutcome (out : List Byte) : FlowEnd :=
  let lastline := scanLastLine out
  match Atoi lastline with
  | none => .panicked lastline
  | some exitcode => if exitcode ≠ 0 then .exit exitcode else .report none

/-- What `wsRead` has done when it ends. -/
structure ReadResult where
  /-- The bytes written to `os.Stdout`. -/
  stdout : List Byte
  /-- The number of calls of `ReadMessage`. -/
  reads : Nat
  /-- How the flow ends. -/
  fin : FlowEnd
  deriving DecidableEq, Repr

/-- The loop of `wsRead` over the frames `ReadMessage` still returns before it
fails with `closeErr`; `out` is the variable `out`, assigned anew by every
frame, `stdout` and `reads` are what was written and read so far. -/
def wsReadLoop (closeErr : ConnError) :
    List (List Byte) → (out stdout : List Byte) → (reads : Nat) → ReadResult
  | [], out, stdout, reads =>
    { stdout := stdout, reads := reads + 1,
      fin := if IsCloseError closeErr [CloseNormalClosure] then closeOutcome out
             else .report (some (.conn closeErr)) }
  | raw :: rest, _, stdout, reads =>
    match DecodeString raw with
    | (_, some off) => { stdout := stdout, reads := reads + 1, fin := .report (some (.decode off)) }
    | (out1, none) => wsReadLoop closeErr rest out1 (stdout ++ out1) (reads + 1)

/-- The method `wsRead`: `ReadMessage` returns `frames` in turn, then fails
with `closeErr`. -/
def wsRead (frames : List (List Byte)) (closeErr : ConnError) : ReadResult :=
  wsReadLoop closeErr frames [] [] 0

/-! ## `WebTerm.wsWrite` -/

/-- What `os.Stdin.Read` returns once the input bytes are read. -/
inductive StdinEnd where
  | eof
  | err (id : Nat)
  deriving DecidableEq, Repr

/-- What `wsWrite` has done when it ends. -/
structure WriteResult where
  /-- The frames `WriteMessage` has sent, in order. -/
  sent : List (List Byte)
  /-- How the flow ends. -/
  fin : WriteEnd
  deriving DecidableEq, Repr

/-- The loop of `wsWrite` over the bytes of standard input still to read;
`send k` is the error of the call number `k` of `WriteMessage` (`none` for
`nil`) and `sent` the frames sent so far. -/
def wsWriteLoop (send : Nat → Option ConnError) (stdinEnd : StdinEnd) :
    List Byte → (sent : List (List Byte)) → WriteResult
  | [], sent =>
    match stdinEnd with
    | .eof => { sent := sent, fin := .silent }
    | .err id => { sent := sent, fin := .report (some (.stdin id)) }
  | key :: rest, sent =>
    let payload := EncodeToString [key]
    match send sent.length with
    | some e =>
      if IsCloseError e [CloseNormalClosure] then { sent := sent, fin := .report none }
      else { sent := sent, fin := .report (some (.conn e)) }
    | none => wsWriteLoop send stdinEnd rest (sent ++ [payload])

/-- The method `wsWrite`. -/
def wsWrite (send : Nat → Option ConnError) (stdin : List Byte) (stdinEnd : StdinEnd) :
    WriteResult :=
  wsWriteLoop send stdinEnd stdin []

/-! ## `WebTerm.SetRawtty` and `WebTerm.Run` -/

/-- The attributes of the local terminal. -/
abbrev Termios := Nat

/-- The local terminal as the program finds it: whether standard input is a
terminal, the attributes `terminal.MakeRaw` sets for given ones, and whether
`terminal.MakeRaw` fails. -/
structure Env where
  isTerminal : Bool
  rawOf : Termios → Termios
  makeRawFails : Bool

/-- A call that changes the terminal attributes. -/
inductive TtyCall where
  | makeRaw
  | restore
  deriving DecidableEq, Repr

/-- The terminal and the field `ttyState` of `WebTerm`. -/
structure TtySession where
  /-- The current attributes of the terminal. -/
  mode : Termios
  /-- The field `w.ttyState` (`none` is `nil`). -/
  ttyState : Option Termios
  /-- The calls made so far. -/
  calls : List TtyCall
  deriving DecidableEq, Repr

/-- The method `SetRawtty(isRaw)`; `none` is a panic (`MakeRaw` failed, or
`Restore` of a nil state). -/
def SetRawtty (env : Env) (isRaw : Bool) (s : TtySession) : Option TtySession :=
  if env.isTerminal then
    if isRaw then
      if env.makeRawFails then none
      else some { mode := env.rawOf s.mode, ttyState := some s.mode, calls := s.calls ++ [.makeRaw] }
    else
      match s.ttyState with
      | none => none
      | some state => some { s with mode := state, calls := s.calls ++ [.restore] }
  else some s

/-- The exit status the operating system keeps of `os.Exit(code)`: the low
eight bits of `code`. -/
def exitStatus (code : Int) : Int := code % 256

/-- How the host process ends. -/
structure ProcessEnd where
  /-- The exit status of the process: that of `os.Exit`, 2 after a panic, 0
  when `main` returns. -/
  status : Int
  /-- The terminal at that moment. -/
  tty : TtySession
  deriving DecidableEq, Repr

/-- The method `Run` followed by the return of `main`; `first` is the first
thing a goroutine started by `Run` does to end the session.  After
`SetRawtty(true)`, either the process ends inside the goroutine (`os.Exit`,
panic), or `Run` receives the value sent on `errChn`, calls `SetRawtty(false)`
and panics on a non-nil error. -/
def Run (env : Env) (mode : Termios) (first : FlowEnd) : ProcessEnd :=
  let s0 : TtySession := { mode := mode, ttyState := none, calls := [] }
  match SetRawtty env true s0 with
  | none => { status := 2, tty := s0 }
  | some s1 =>
    match first with
    | .exit code => { status := exitStatus code, tty := s1 }
    | .panicked _ => { status := 2, tty := s1 }
    | .report err =>
      match SetRawtty env false s1 with
      | none => { status := 2, tty := s1 }
      | some s2 =>
        match err with
        | some _ => { status := 2, tty := s2 }
        | none => { status := 0, tty := s2 }

/-- The first thing either goroutine does to end the session: the send of
`wsWrite` on `errChn` when it sends and does so before `wsRead` ends
(`outboundFirst`), the end of `wsRead` otherwise. -/
def firstEnd (inbound : FlowEnd) (outbound : WriteEnd) (outboundFirst : Bool) : FlowEnd :=
  match outbound, outboundFirst with
  | .report err, true => .report err
  | _, _ => inbound

/-- The whole session of `Run`: the goroutine `wsRead` gets `frames` and then
`closeErr`, the goroutine `wsWrite` reads `stdin` and sends with the results
`send`, and `outboundFirst` tells which of the two is first to end the
session. -/
def Session (env : Env) (mode : Termios) (frames : List (List Byte)) (closeErr : ConnError)
    (send : Nat → Option ConnError) (stdin : List Byte) (stdinEnd : StdinEnd)
    (outboundFirst : Bool) : ProcessEnd :=
  Run env mode
    (firstEnd (wsRead frames closeErr).fin (wsWrite send stdin stdinEnd).fin outboundFirst)

/-! ## The rendezvous on `errChn` -/

/-- One of the two goroutines `Run` starts. -/
inductive Flow where
  | inbound
  | outbound
  deriving DecidableEq, Repr

/-- The other goroutine. -/
def Flow.other : Flow → Flow
  | .inbound => .outbound
  | .outbound => .inbound

/-- A goroutine at a send `w.errChn <- v`: still at it, or past it. -/
inductive Sender where
  | sending (v : Option SessionErr)
  | done
  deriving DecidableEq, Repr

/-- The receive `err := <-w.errChn` of `Run`: still waiting, or done with the
value received. -/
inductive Receiver where
  | waiting
  | received (v : Option SessionErr)
  deriving DecidableEq, Repr

/-- The channel `errChn`, made by `make(chan error)` without a buffer, with the
two goroutines that send on it and `Run`, which receives from it once. -/
structure ChanState where
  inbound : Sender
  outbound : Sender
  run : Receiver
  deriving DecidableEq, Repr

/-- The sender state of a flow. -/
def ChanState.sender (s : ChanState) : Flow → Sender
  | .inbound => s.inbound
  | .outbound => s.outbound

/-- The send of flow `f` completes: possible only while `Run` waits at its
receive, since the channel has no buffer; `none` when the send cannot complete
(the goroutine stays blocked) or the flow is not at a send. -/
def trySend (f : Flow) (s : ChanState) : Option ChanState :=
  match s.run, f, s.sender f with
  | .waiting, .inbound, .sending v => some { s with inbound := .done, run := .received v }
  | .waiting, .outbound, .sending v => some { s with outbound := .done, run := .received v }
  | _, _, _ => none

/-- The state after the scheduler has let the flows of `sched` try their sends
in turn; a send that cannot complete leaves the state as it is. -/
def schedule : List Flow → ChanState → ChanState
  | [], s => s
  | f :: rest, s => schedule rest ((trySend f s).getD s)

/-! ## `RancherAPI.formatUrl` -/

/-- The function `strings.Contains(s, substr)`. -/
def Contains : List Byte → List Byte → Bool
  | [], substr => substr.isEmpty
  | c :: rest, substr => substr.isPrefixOf (c :: rest) || Contains rest substr

/-- The method `formatUrl` on `r.Url = url`; `none` is the panic of the slice
expression on an empty `url`. -/
def formatUrl (url : List Byte) : Option (List Byte) :=
  if url = [] then none
  else
    let Url := if url.getLast? = some 47 then url.dropLast else url
    if !Contains Url (ascii "/v1/") then some (Url ++ ascii "/v1") else some Url

/-- The address of the request `containerUrl` makes first:
`r.formatUrl()+"/containers/"`. -/
def containerListUrl (url : List Byte) : Option (List Byte) :=
  (formatUrl url).map (fun u => u ++ ascii "/containers/")

/-! ## Round trip of the base64 framing -/

theorem decodeMap_encodeSym (i : Nat) (h : i < 64) : decodeMap (encodeSym i) = i := by
  have key : ∀ k : Fin 64, decodeMap (encodeSym k.val) = k.val := by decide
  exact key ⟨i, h⟩

theorem sextet_lt (v k : Nat) : v >>> k &&& 0x3F < 64 := by
  have h := Nat.and_pow_two_sub_one_eq_mod (v >>> k) 6
  have e : (2 : Nat) ^ 6 - 1 = 0x3F := by norm_num
  rw [e] at h
  rw [h]
  exact Nat.mod_lt _ (by norm_num)

theorem sextet_eq (v k : Nat) : v >>> k &&& 0x3F = v / 2 ^ k % 64 := by
  have h := Nat.and_pow_two_sub_one_eq_mod (v >>> k) 6
  have e : (2 : Nat) ^ 6 - 1 = 0x3F := by norm_num
  rw [e] at h
  rw [h, Nat.shiftRight_eq_div_pow]

theorem shl_or (a i b : Nat) (h : b < 2 ^ i) : a <<< i ||| b = a * 2 ^ i + b := by
  rw [Nat.shiftLeft_eq, Nat.mul_comm, Nat.mul_add_lt_is_or h]

theorem pack3 (a b c : Nat) (hb : b < 256) (hc : c < 256) :
    a <<< 16 ||| b <<< 8 ||| c = a * 65536 + b * 256 + c := by
  have h1 : b <<< 8 ||| c = b * 256 + c := by
    rw [shl_or b 8 c (by norm_num; exact hc)]; norm_num
  rw [Nat.or_assoc, h1, shl_or a 16 _ (by norm_num; omega)]
  norm_num; omega

theorem pack4 (s0 s1 s2 s3 : Nat) (h1 : s1 < 64) (h2 : s2 < 64) (h3 : s3 < 64) :
    s0 <<< 18 ||| s1 <<< 12 ||| s2 <<< 6 ||| s3 = s0 * 262144 + s1 * 4096 + s2 * 64 + s3 := by
  have e1 : s2 <<< 6 ||| s3 = s2 * 64 + s3 := by
    rw [shl_or s2 6 s3 (by norm_num; exact h3)]; norm_num
  have e2 : s1 <<< 12 ||| (s2 * 64 + s3) = s1 * 4096 + (s2 * 64 + s3) := by
    rw [shl_or s1 12 _ (by norm_num; omega)]; norm_num
  rw [Nat.or_assoc, Nat.or_assoc, e1, e2, shl_or s0 18 _ (by norm_num; omega)]
  norm_num; omega

theorem byte_ofNat (n : Nat) (a : Byte) (h : n % 256 = a.val) : (Fin.ofNat n : Byte) = a := by
  apply Fin.ext
  simpa [Fin.ofNat] using h

theorem quantum_three (a b c : Byte) :
    quantumBytes 4 ((a.val <<< 16 ||| b.val <<< 8 ||| c.val) >>> 18 &&& 0x3F)
      ((a.val <<< 16 ||| b.val <<< 8 ||| c.val) >>> 12 &&& 0x3F)
      ((a.val <<< 16 ||| b.val <<< 8 ||| c.val) >>> 6 &&& 0x3F)
      ((a.val <<< 16 ||| b.val <<< 8 ||| c.val) &&& 0x3F) = [a, b, c] := by
  have ha := a.isLt
  have hb := b.isLt
  have hc := c.isLt
  have h0 : (a.val <<< 16 ||| b.val <<< 8 ||| c.val) &&& 0x3F
      = (a.val <<< 16 ||| b.val <<< 8 ||| c.val) >>> 0 &&& 0x3F := by simp
  rw [h0]
  simp only [quantumBytes, sextet_eq, pack3 a.val b.val c.val hb hc]
  rw [pack4 _ _ _ _ (Nat.mod_lt _ (by norm_num)) (Nat.mod_lt _ (by norm_num))
    (Nat.mod_lt _ (by norm_num))]
  simp only [Nat.shiftRight_eq_div_pow]
  rw [byte_ofNat _ a (by norm_num; omega), byte_ofNat _ b (by norm_num; omega),
    byte_ofNat _ c (by norm_num; omega)]

theorem quantum_two (a b : Byte) :
    quantumBytes 3 ((a.val <<< 16 ||| b.val <<< 8) >>> 18 &&& 0x3F)
      ((a.val <<< 16 ||| b.val <<< 8) >>> 12 &&& 0x3F)
      ((a.val <<< 16 ||| b.val <<< 8) >>> 6 &&& 0x3F) 0 = [a, b] := by
  have ha := a.isLt
  have hb := b.isLt
  have hp : a.val <<< 16 ||| b.val <<< 8 = a.val * 65536 + b.val * 256 + 0 := by
    have := pack3 a.val b.val 0 hb (by norm_num)
    simpa using this
  simp only [quantumBytes, sextet_eq, hp]
  rw [pack4 _ _ _ _ (Nat.mod_lt _ (by norm_num)) (Nat.mod_lt _ (by norm_num)) (by norm_num)]
  simp only [Nat.shiftRight_eq_div_pow]
  rw [byte_ofNat _ a (by norm_num; omega), byte_ofNat _ b (by norm_num; omega)]

theorem quantum_one (a : Byte) :
    quantumBytes 2 ((a.val <<< 16) >>> 18 &&& 0x3F) ((a.val <<< 16) >>> 12 &&& 0x3F) 0 0
      = [a] := by
  have ha := a.isLt
  have hp : a.val <<< 16 = a.val * 65536 := by rw [Nat.shiftLeft_eq]
  simp only [quantumBytes, sextet_eq, hp]
  have h4 := pack4 (a.val * 65536 / 2 ^ 18 % 64) (a.val * 65536 / 2 ^ 12 % 64) 0 0
    (Nat.mod_lt _ (by norm_num)) (by norm_num) (by norm_num)
  rw [h4]
  simp only [Nat.shiftRight_eq_div_pow]
  rw [byte_ofNat _ a (by norm_num; omega)]

theorem encodeSym_ok (x : Nat) (hx : x < 64) : decodeMap (encodeSym x) ≠ 0xff := by
  rw [decodeMap_encodeSym x hx]; omega

theorem decodeLoop_sym0 (x : Nat) (hx : x < 64) (rest : List Byte) (si d0 d1 d2 : Nat)
    (acc : List Byte) :
    decodeLoop (encodeSym x :: rest) si 0 d0 d1 d2 acc = decodeLoop rest (si + 1) 1 x 0 0 acc := by
  rw [decodeLoop, if_pos (encodeSym_ok x hx), decodeMap_encodeSym x hx]

theorem decodeLoop_sym1 (x : Nat) (hx : x < 64) (rest : List Byte) (si d0 d1 d2 : Nat)
    (acc : List Byte) :
    decodeLoop (encodeSym x :: rest) si 1 d0 d1 d2 acc = decodeLoop rest (si + 1) 2 d0 x 0 acc := by
  rw [decodeLoop, if_pos (encodeSym_ok x hx), decodeMap_encodeSym x hx]

theorem decodeLoop_sym2 (x : Nat) (hx : x < 64) (rest : List Byte) (si d0 d1 d2 : Nat)
    (acc : List Byte) :
    decodeLoop (encodeSym x :: rest) si 2 d0 d1 d2 acc = decodeLoop rest (si + 1) 3 d0 d1 x acc := by
  rw [decodeLoop, if_pos (encodeSym_ok x hx), decodeMap_encodeSym x hx]

theorem decodeLoop_sym3 (x : Nat) (hx : x < 64) (rest : List Byte) (si d0 d1 d2 : Nat)
    (acc : List Byte) :
    decodeLoop (encodeSym x :: rest) si 3 d0 d1 d2 acc =
      decodeLoop rest (si + 1) 0 0 0 0 (acc ++ quantumBytes 4 d0 d1 d2 x) := by
  rw [decodeLoop, if_pos (encodeSym_ok x hx), decodeMap_encodeSym x hx] <;> omega

theorem decodeMap_padChar : decodeMap padChar = 0xff := by decide

theorem decodeLoop_pad2 (si d0 d1 d2 : Nat) (acc : List Byte) :
    decodeLoop [padChar, padChar] si 2 d0 d1 d2 acc = (acc ++ quantumBytes 2 d0 d1 d2 0, none) := by
  have h1 : ¬ (padChar = LF ∨ padChar = CR) := by decide
  rw [decodeLoop, if_neg (by rw [decodeMap_padChar]; simp), if_neg h1, if_neg (by simp)]
  simp [decodePadding, skipNewlines, h1]

theorem decodeLoop_pad1 (si d0 d1 d2 : Nat) (acc : List Byte) :
    decodeLoop [padChar] si 3 d0 d1 d2 acc = (acc ++ quantumBytes 3 d0 d1 d2 0, none) := by
  have h1 : ¬ (padChar = LF ∨ padChar = CR) := by decide
  rw [decodeLoop, if_neg (by rw [decodeMap_padChar]; simp), if_neg h1, if_neg (by simp)]
  · simp [decodePadding, skipNewlines]
  all_goals omega

theorem decodeLoop_Encode (bs : List Byte) : ∀ (si : Nat) (acc : List Byte),
    decodeLoop (Encode bs) si 0 0 0 0 acc = (acc ++ bs, none) := by
  induction bs using Encode.induct with
  | case1 a b c rest ih =>
    intro si acc
    rw [Encode]
    rw [decodeLoop_sym0 _ (sextet_lt _ _), decodeLoop_sym1 _ (sextet_lt _ _),
      decodeLoop_sym2 _ (sextet_lt _ _)]
    have h3 : (a.val <<< 16 ||| b.val <<< 8 ||| c.val) &&& 0x3F < 64 := by
      have := sextet_lt (a.val <<< 16 ||| b.val <<< 8 ||| c.val) 0
      simpa using this
    rw [decodeLoop_sym3 _ h3, quantum_three, ih]
    simp
  | case2 a b =>
    intro si acc
    rw [Encode]
    rw [decodeLoop_sym0 _ (sextet_lt _ _), decodeLoop_sym1 _ (sextet_lt _ _),
      decodeLoop_sym2 _ (sextet_lt _ _), decodeLoop_pad1, quantum_two]
  | case3 a =>
    intro si acc
    rw [Encode]
    rw [decodeLoop_sym0 _ (sextet_lt _ _), decodeLoop_sym1 _ (sextet_lt _ _),
      decodeLoop_pad2, quantum_one]
  | case4 =>
    intro si acc
    simp [Encode, decodeLoop]

theorem DecodeString_EncodeToString (b : List Byte) :
    DecodeString (EncodeToString b) = (b, none) := by
  simpa [DecodeString, EncodeToString] using decodeLoop_Encode b 0 []

/-! ## The inbound loop over frames that decode -/

theorem getLast_getD_cons {α : Type} (x : α) (xs : List α) (a b : α) :
    (x :: xs).getLast?.getD a = (x :: xs).getLast?.getD b := by
  cases h : (x :: xs).getLast? with
  | none => simp at h
  | some y => rfl

theorem wsReadLoop_decoded (closeErr : ConnError) (pre : List (List Byte)) :
    ∀ (tail : List (List Byte)) (out stdout : List Byte) (reads : Nat),
      (∀ f ∈ pre, (DecodeString f).2 = none) →
      wsReadLoop closeErr (pre ++ tail) out stdout reads =
        wsReadLoop closeErr tail ((pre.map (fun f => (DecodeString f).1)).getLast?.getD out)
          (stdout ++ (pre.map (fun f => (DecodeString f).1)).flatten) (reads + pre.length) := by
  induction pre with
  | nil => intro tail out stdout reads _; simp
  | cons f pre ih =>
    intro tail out stdout reads h
    have hf : (DecodeString f).2 = none := h f (List.mem_cons_self _ _)
    have hpre : ∀ g ∈ pre, (DecodeString g).2 = none :=
      fun g hg => h g (List.mem_cons_of_mem _ hg)
    have hsplit : DecodeString f = ((DecodeString f).1, none) := by
      rw [← hf]
    rw [List.cons_append, wsReadLoop]
    rw [hsplit]
    simp only []
    rw [ih tail _ _ _ hpre]
    congr 1
    · cases pre with
      | nil => simp
      | cons g gs =>
        simp only [List.map_cons, List.getLast?_cons_cons]
        exact getLast_getD_cons _ _ _ _
    · simp [List.append_assoc]
    · simp; omega

theorem wsReadLoop_failure (closeErr : ConnError)
    (h : IsCloseError closeErr [CloseNormalClosure] = false) (frames : List (List Byte)) :
    ∀ (out stdout : List Byte) (reads : Nat),
      ∃ err, (wsReadLoop closeErr frames out stdout reads).fin = .report (some err) := by
  induction frames with
  | nil =>
    intro out stdout reads
    exact ⟨.conn closeErr, by simp [wsReadLoop, h]⟩
  | cons f rest ih =>
    intro out stdout reads
    rw [wsReadLoop]
    cases hd : DecodeString f with
    | mk out1 err1 =>
      cases err1 with
      | none => exact ih _ _ _
      | some off => exact ⟨.decode off, rfl⟩

theorem map_decode_encode (chunks : List (List Byte)) :
    (chunks.map EncodeToString).map (fun f => (DecodeString f).1) = chunks := by
  induction chunks with
  | nil => rfl
  | cons c cs ih =>
    simp only [List.map_cons, DecodeString_EncodeToString, ih]

theorem wsRead_encoded (closeErr : ConnError) (chunks : List (List Byte)) :
    wsRead (chunks.map EncodeToString) closeErr =
      { stdout := chunks.flatten, reads := chunks.length + 1,
        fin := if IsCloseError closeErr [CloseNormalClosure]
               then closeOutcome (chunks.getLast?.getD [])
               else .report (some (.conn closeErr)) } := by
  have h := wsReadLoop_decoded closeErr (chunks.map EncodeToString) [] [] [] 0
    (by
      intro f hf
      obtain ⟨c, _, rfl⟩ := List.mem_map.mp hf
      rw [DecodeString_EncodeToString])
  rw [List.append_nil] at h
  rw [wsRead, h, map_decode_encode, wsReadLoop]
  simp

/-! ## The last line the scanner yields -/

theorem scanTokens_noLF (xs : List Byte) : ∀ (cur ys : List Byte), LF ∉ xs →
    scanTokens (xs ++ ys) cur = scanTokens ys (cur ++ xs) := by
  induction xs with
  | nil => intro cur ys _; simp
  | cons c xs ih =>
    intro cur ys h
    have hc : c ≠ LF := fun e => h (by simp [e])
    have hxs : LF ∉ xs := fun e => h (List.mem_cons_of_mem _ e)
    rw [List.cons_append, scanTokens, if_neg hc, ih _ _ hxs]
    simp

theorem scanTokens_lines (head : List Byte) : ∀ (cur tail : List Byte),
    head ≠ [] → head.getLast? = some LF → LF ∉ cur →
    (∀ seg, seg <:+: cur ++ head → LF ∉ seg → seg.length < MaxScanTokenSize) →
    ∃ toks, scanTokens (head ++ tail) cur = toks ++ scanTokens tail [] := by
  induction head with
  | nil => intro cur tail h; exact absurd rfl h
  | cons c rest ih =>
    intro cur tail _ hlast hcur hfit
    rw [List.cons_append, scanTokens]
    by_cases hc : c = LF
    · have hlen : cur.length < MaxScanTokenSize :=
        hfit cur ⟨[], c :: rest, by simp⟩ hcur
      rw [if_pos hc, if_pos hlen]
      by_cases hrest : rest = []
      · subst hrest
        exact ⟨[dropCR cur], by simp⟩
      · have hl : rest.getLast? = some LF := by
          cases rest with
          | nil => exact absurd rfl hrest
          | cons r rs => simpa [List.getLast?_cons_cons] using hlast
        obtain ⟨toks, ht⟩ := ih [] tail hrest hl (by simp) (by
          intro seg hseg hno
          apply hfit seg _ hno
          obtain ⟨p, q, e⟩ := hseg
          rw [List.nil_append] at e
          exact ⟨cur ++ c :: p, q, by rw [← e]; simp⟩)
        exact ⟨dropCR cur :: toks, by rw [ht]; simp⟩
    · rw [if_neg hc]
      have hrest : rest ≠ [] := by
        intro e
        subst e
        simp at hlast
        exact hc hlast
      have hl : rest.getLast? = some LF := by
        cases rest with
        | nil => exact absurd rfl hrest
        | cons r rs => simpa [List.getLast?_cons_cons] using hlast
      have hcur2 : LF ∉ cur ++ [c] := by
        simp only [List.mem_append, List.mem_singleton, not_or]
        exact ⟨hcur, fun e => hc e.symm⟩
      exact ih (cur ++ [c]) tail hrest hl hcur2 (by simpa using hfit)

theorem foldl_last_append (toks : List (List Byte)) (t : List Byte) :
    (toks ++ [t]).foldl (fun _ text => text) [] = t := by
  simp [List.foldl_append]

theorem scanLastLine_final (head line : List Byte)
    (hhead : head = [] ∨ head.getLast? = some LF)
    (hfit : ∀ seg, seg <:+: head → LF ∉ seg → seg.length < MaxScanTokenSize)
    (hline : LF ∉ line) (hlen : line.length < MaxScanTokenSize) :
    scanLastLine (head ++ line ++ [LF]) = dropCR line ∧
      (line ≠ [] → scanLastLine (head ++ line) = dropCR line) := by
  have h1 : scanTokens (line ++ [LF]) [] = [dropCR line] := by
    rw [scanTokens_noLF line [] [LF] hline]
    simp [scanTokens, hlen]
  have h2 : line ≠ [] → scanTokens line [] = [dropCR line] := by
    intro hne
    have := scanTokens_noLF line [] [] hline
    rw [List.append_nil] at this
    rw [this]
    simp [scanTokens, hlen, hne]
  by_cases hh : head = []
  · subst hh
    refine ⟨?_, fun hne => ?_⟩
    · simp only [List.nil_append, scanLastLine, h1]
      rfl
    · simp only [List.nil_append, scanLastLine, h2 hne]
      rfl
  · have hl : head.getLast? = some LF := hhead.resolve_left hh
    refine ⟨?_, fun hne => ?_⟩
    · obtain ⟨toks, ht⟩ := scanTokens_lines head [] (line ++ [LF]) hh hl (by simp)
        (by simpa using hfit)
      rw [List.append_assoc, scanLastLine, ht, h1, foldl_last_append]
    · obtain ⟨toks, ht⟩ := scanTokens_lines head [] line hh hl (by simp)
        (by simpa using hfit)
      rw [scanLastLine, ht, h2 hne, foldl_last_append]

/-! ## The claims about the base64 framing and the exit marker -/

/-- Claim C1: for every byte sequence `b`, the decoding `wsRead` applies
(`DecodeString`) to the text the encoding of `wsWrite` (`EncodeToString`)
produces for `b` succeeds (the error is `nil`) and returns exactly `b`. -/
theorem base64_decode_encode (b : List Byte) :
    DecodeString (EncodeToString b) = (b, none) :=
  DecodeString_EncodeToString b

/-- Claim C2, amended: at a normal closure `wsRead` takes the result from the
last line of the decoded text of the last frame, empty or not.  When that text
is `head ++ line ++ "\n"` or `head ++ line` with `line` non-empty, `head` empty
or ending in a newline, `line` free of newlines and every line shorter than the
scanner's buffer, the line is `line` without one trailing `'\r'`: if `Atoi`
gives 0 the flow reports `nil` (Clean), if it gives `n ≠ 0` the process exits
with `n`, and if it fails the flow panics. -/
theorem wsRead_exit_marker_last_line (chunks : List (List Byte)) (head line text : List Byte)
    (hhead : head = [] ∨ head.getLast? = some LF)
    (hfit : ∀ seg, seg <:+: head → LF ∉ seg → seg.length < MaxScanTokenSize)
    (hline : LF ∉ line) (hlen : line.length < MaxScanTokenSize)
    (htext : text = head ++ line ++ [LF] ∨ (line ≠ [] ∧ text = head ++ line)) :
    (Atoi (dropCR line) = some 0 →
      (wsRead ((chunks ++ [text]).map EncodeToString) (.closeError CloseNormalClosure)).fin
        = .report none) ∧
    (∀ n : Int, n ≠ 0 → Atoi (dropCR line) = some n →
      (wsRead ((chunks ++ [text]).map EncodeToString) (.closeError CloseNormalClosure)).fin
        = .exit n) ∧
    (Atoi (dropCR line) = none →
      (wsRead ((chunks ++ [text]).map EncodeToString) (.closeError CloseNormalClosure)).fin
        = .panicked (dropCR line)) := by
  have hscan : scanLastLine text = dropCR line := by
    have h := scanLastLine_final head line hhead hfit hline hlen
    rcases htext with e | ⟨hne, e⟩
    · rw [e]; exact h.1
    · rw [e]; exact h.2 hne
  have hfin : (wsRead ((chunks ++ [text]).map EncodeToString)
      (.closeError CloseNormalClosure)).fin = closeOutcome text := by
    rw [wsRead_encoded]
    simp [IsCloseError]
  rw [hfin]
  unfold closeOutcome
  simp only [hscan]
  refine ⟨fun h => ?_, fun n hn h => ?_, fun h => ?_⟩
  · rw [h]; simp
  · rw [h]; simp [hn]
  · rw [h]

/-- The three outputs of the specification: `"hello\n0\n"` makes the flow
report `nil`, `"err\n17\n"` makes the process exit with 17 and
`"no digits here\n"` makes the flow panic. -/
theorem wsRead_exit_marker_last_line_witness :
    (wsRead (([] ++ [ascii "hello\n0\n"]).map EncodeToString)
        (.closeError CloseNormalClosure)).fin = .report none ∧
      (wsRead (([] ++ [ascii "err\n17\n"]).map EncodeToString)
        (.closeError CloseNormalClosure)).fin = .exit 17 ∧
      (wsRead (([] ++ [ascii "no digits here\n"]).map EncodeToString)
        (.closeError CloseNormalClosure)).fin = .panicked (ascii "no digits here") :=
  ⟨(wsRead_exit_marker_last_line [] (ascii "hello\n") (ascii "0") (ascii "hello\n0\n")
      (Or.inr (by decide))
      (fun seg h _ => lt_of_le_of_lt h.length_le (by decide))
      (by decide) (by decide) (Or.inl (by decide))).1 (by decide),
    (wsRead_exit_marker_last_line [] (ascii "err\n") (ascii "17") (ascii "err\n17\n")
      (Or.inr (by decide))
      (fun seg h _ => lt_of_le_of_lt h.length_le (by decide))
      (by decide) (by decide) (Or.inl (by decide))).2.1 17 (by decide) (by decide),
    (wsRead_exit_marker_last_line [] [] (ascii "no digits here") (ascii "no digits here\n")
      (Or.inl rfl)
      (fun seg h _ => lt_of_le_of_lt h.length_le (by decide))
      (by decide) (by decide) (Or.inl (by decide))).2.2 (by decide)⟩

/-- Claim C2 is false as stated: after `"hello\n0\n"` the flow reports `nil`,
but with one more empty line, `"hello\n0\n\n"`, whose last non-empty line is
still `"0"`, the last line is empty and the flow panics. -/
theorem wsRead_trailing_empty_line_panics :
    (wsRead [EncodeToString (ascii "hello\n0\n")] (.closeError CloseNormalClosure)).fin
        = .report none ∧
      (wsRead [EncodeToString (ascii "hello\n0\n\n")] (.closeError CloseNormalClosure)).fin
        = .panicked [] := by
  have h := fun text => wsRead_encoded (.closeError CloseNormalClosure) [text]
  simp only [List.map_cons, List.map_nil] at h
  rw [h, h]
  decide

/-- Claim C3, amended: for chunks of output sent as validly encoded frames and
followed by a normal closure, local output receives the concatenation of the
chunks, but the result is the exit-marker rule applied to the last chunk alone
(to the empty text when there is no frame), after one read per frame and one
more for the closure. -/
theorem wsRead_marker_from_last_frame (chunks : List (List Byte)) :
    wsRead (chunks.map EncodeToString) (.closeError CloseNormalClosure) =
      { stdout := chunks.flatten, reads := chunks.length + 1,
        fin := closeOutcome (chunks.getLast?.getD []) } := by
  rw [wsRead_encoded]
  simp [IsCloseError]

/-- Claim C3 is false as stated: the frames `"0"`, `"\n"` and the single frame
`"0\n"` carry the same concatenated output, yet the first sequence ends in a
panic (the last frame holds an empty line) and the second reports `nil`. -/
theorem wsRead_frame_boundary_changes_outcome :
    [ascii "0", ascii "\n"].flatten = [ascii "0\n"].flatten ∧
      (wsRead ([ascii "0", ascii "\n"].map EncodeToString)
        (.closeError CloseNormalClosure)).fin = .panicked [] ∧
      (wsRead ([ascii "0\n"].map EncodeToString)
        (.closeError CloseNormalClosure)).fin = .report none := by
  rw [wsRead_encoded, wsRead_encoded]
  decide

/-! ## The host exit status and the terminal mode -/

theorem Run_report_none (env : Env) (mode : Termios) (hraw : env.makeRawFails = false) :
    (Run env mode (.report none)).status = 0 := by
  unfold Run SetRawtty
  cases hterm : env.isTerminal <;> simp [hraw]

theorem Run_exit (env : Env) (mode : Termios) (hraw : env.makeRawFails = false) (n : Int) :
    (Run env mode (.exit n)).status = n % 256 := by
  unfold Run SetRawtty exitStatus
  cases hterm : env.isTerminal <;> simp [hraw]

theorem Run_report_some (env : Env) (mode : Termios) (e : SessionErr) :
    (Run env mode (.report (some e))).status = 2 := by
  unfold Run SetRawtty
  cases hterm : env.isTerminal <;> cases hraw : env.makeRawFails <;> simp

theorem firstEnd_inbound (inbound : FlowEnd) (outbound : WriteEnd) (outboundFirst : Bool)
    (h : outbound = .silent ∨ outboundFirst = false) :
    firstEnd inbound outbound outboundFirst = inbound := by
  rcases h with h | h
  · subst h; cases outboundFirst <;> rfl
  · subst h; cases outbound <;> rfl

/-- Claim C4, amended: the host exit status follows the first end of a flow
(`MakeRaw` not having failed at the start).  When the outbound flow ends
silently or is not the first to report, the inbound flow decides: after a
normal closure with an exit marker that `Atoi` reads as `n` the status is
`n mod 256`, the low eight bits of the argument of `os.Exit`, which is `n`
itself for `0 ≤ n < 256` (0 for the marker 0, where `Run` receives `nil` and
`main` returns); when the read error that ends the stream is not a normal
closure, and when a frame does not decode, the status is not 0.  When the
outbound flow reports first, the status is 0 for its `nil` and 2 for its error,
whatever the inbound flow does. -/
theorem host_exit_status (env : Env) (mode : Termios) (hraw : env.makeRawFails = false)
    (send : Nat → Option ConnError) (stdin : List Byte) (stdinEnd : StdinEnd)
    (outboundFirst : Bool) :
    ((wsWrite send stdin stdinEnd).fin = .silent ∨ outboundFirst = false →
      (∀ (chunks : List (List Byte)) (n : Int),
        Atoi (scanLastLine (chunks.getLast?.getD [])) = some n →
        (Session env mode (chunks.map EncodeToString) (.closeError CloseNormalClosure)
          send stdin stdinEnd outboundFirst).status = n % 256 ∧
        (0 ≤ n → n < 256 →
          (Session env mode (chunks.map EncodeToString) (.closeError CloseNormalClosure)
            send stdin stdinEnd outboundFirst).status = n)) ∧
      (∀ (frames : List (List Byte)) (e : ConnError),
        IsCloseError e [CloseNormalClosure] = false →
        (Session env mode frames e send stdin stdinEnd outboundFirst).status ≠ 0) ∧
      (∀ (pre : List (List Byte)) (bad : List Byte) (rest : List (List Byte)) (e : ConnError),
        (∀ f ∈ pre, (DecodeString f).2 = none) → (DecodeString bad).2 ≠ none →
        (Session env mode (pre ++ bad :: rest) e send stdin stdinEnd outboundFirst).status
          ≠ 0)) ∧
    (∀ (err : Option SessionErr) (frames : List (List Byte)) (e : ConnError),
      (wsWrite send stdin stdinEnd).fin = .report err → outboundFirst = true →
      (Session env mode frames e send stdin stdinEnd outboundFirst).status
        = if err = none then 0 else 2) := by
  refine ⟨fun hin => ⟨fun chunks n h => ?_, fun frames e h => ?_,
    fun pre bad rest e hpre hbad => ?_⟩, fun err frames e hout hfirst => ?_⟩
  · have hstatus : (Session env mode (chunks.map EncodeToString)
        (.closeError CloseNormalClosure) send stdin stdinEnd outboundFirst).status
          = n % 256 := by
      rw [Session, firstEnd_inbound _ _ _ hin, wsRead_encoded]
      have hc : IsCloseError (.closeError CloseNormalClosure) [CloseNormalClosure] = true := by
        decide
      simp only [hc, if_true]
      unfold closeOutcome
      simp only [h]
      by_cases hn : n = 0
      · subst hn
        simpa using Run_report_none env mode hraw
      · simpa [hn] using Run_exit env mode hraw n
    refine ⟨hstatus, fun h0 h256 => ?_⟩
    rw [hstatus]
    exact Int.emod_eq_of_lt h0 h256
  · obtain ⟨err, herr⟩ := wsReadLoop_failure e h frames [] [] 0
    rw [Session, firstEnd_inbound _ _ _ hin, wsRead, herr, Run_report_some]
    decide
  · obtain ⟨off, hoff⟩ := Option.ne_none_iff_exists'.mp hbad
    have hsplit : DecodeString bad = ((DecodeString bad).1, some off) := by rw [← hoff]
    rw [Session, firstEnd_inbound _ _ _ hin, wsRead, wsReadLoop_decoded _ pre _ _ _ _ hpre,
      wsReadLoop, hsplit]
    simp only []
    rw [Run_report_some]
    decide
  · rw [Session, hout, hfirst]
    cases err with
    | none => simpa [firstEnd] using Run_report_none env mode hraw
    | some x => simpa [firstEnd] using Run_report_some env mode x

/-- A terminal and no local input: the marker 17 and the marker 0. -/
theorem host_exit_status_witness :
    (Session ⟨true, fun m => m + 1, false⟩ 0 ([ascii "err\n17\n"].map EncodeToString)
        (.closeError CloseNormalClosure) (fun _ => none) [] .eof false).status = 17 ∧
      (Session ⟨true, fun m => m + 1, false⟩ 0 ([ascii "hello\n0\n"].map EncodeToString)
        (.closeError CloseNormalClosure) (fun _ => none) [] .eof false).status = 0 :=
  ⟨((host_exit_status ⟨true, fun m => m + 1, false⟩ 0 rfl (fun _ => none) [] .eof false).1
      (Or.inr rfl)).1 [ascii "err\n17\n"] 17 (by decide) |>.2 (by decide) (by decide),
    ((host_exit_status ⟨true, fun m => m + 1, false⟩ 0 rfl (fun _ => none) [] .eof false).1
      (Or.inr rfl)).1 [ascii "hello\n0\n"] 0 (by decide) |>.2 (by decide) (by decide)⟩

/-- Claim C4 is false as stated: after a normal closure with the exit marker
256 the host exits with status 0, not 256, and with the marker -1 it exits
with status 255; and when the outbound flow reports `nil` first (its send
failed with a normal closure) the host exits with status 0 although the exit
marker is 17. -/
theorem host_exit_status_not_marker :
    Atoi (ascii "256") = some 256 ∧
      (Session ⟨true, fun m => m + 1, false⟩ 0 [EncodeToString (ascii "256\n")]
        (.closeError CloseNormalClosure) (fun _ => none) [] .eof false).status = 0 ∧
      Atoi (ascii "-1") = some (-1) ∧
      (Session ⟨true, fun m => m + 1, false⟩ 0 [EncodeToString (ascii "-1\n")]
        (.closeError CloseNormalClosure) (fun _ => none) [] .eof false).status = 255 ∧
      (wsRead [EncodeToString (ascii "17\n")] (.closeError CloseNormalClosure)).fin = .exit 17 ∧
      (Session ⟨true, fun m => m + 1, false⟩ 0 [EncodeToString (ascii "17\n")]
        (.closeError CloseNormalClosure) (fun _ => some (.closeError CloseNormalClosure))
        (ascii "x") .eof true).status = 0 := by
  decide

/-- Claim C5 fails on the code: on a terminal, when the remote output `"17\n"`
is followed by a normal closure, `wsRead` calls `os.Exit(17)` itself and the
process ends with the terminal in raw mode, `Restore` never called; so it does
when the marker does not parse and `wsRead` panics.  On the sibling path of the
marker 0 `Run` does restore the saved mode. -/
theorem exit_code_path_skips_restore (rawOf : Termios → Termios) (mode : Termios) :
    Run ⟨true, rawOf, false⟩ mode
        (wsRead [EncodeToString (ascii "17\n")] (.closeError CloseNormalClosure)).fin
      = { status := 17,
          tty := { mode := rawOf mode, ttyState := some mode, calls := [.makeRaw] } } ∧
    Run ⟨true, rawOf, false⟩ mode
        (wsRead [EncodeToString (ascii "0\n")] (.closeError CloseNormalClosure)).fin
      = { status := 0,
          tty := { mode := mode, ttyState := some mode, calls := [.makeRaw, .restore] } } ∧
    Run ⟨true, rawOf, false⟩ mode
        (wsRead [EncodeToString (ascii "bye\n")] (.closeError CloseNormalClosure)).fin
      = { status := 2,
          tty := { mode := rawOf mode, ttyState := some mode, calls := [.makeRaw] } } := by
  have hp : (wsRead [EncodeToString (ascii "bye\n")] (.closeError CloseNormalClosure)).fin
      = .panicked (ascii "bye") := by decide
  have h17 : (wsRead [EncodeToString (ascii "17\n")] (.closeError CloseNormalClosure)).fin
      = .exit 17 := by decide
  have h0 : (wsRead [EncodeToString (ascii "0\n")] (.closeError CloseNormalClosure)).fin
      = .report none := by decide
  rw [h17, h0, hp]
  simp [Run, SetRawtty, exitStatus]


/-! ## The texts `DecodeString` accepts -/

theorem isSymbol_iff (c : Byte) : isSymbol c = true ↔ decodeMap c ≠ 0xff := by
  simp [isSymbol]

theorem isSymbol_padChar : isSymbol padChar = false := by decide

theorem newline_not_symbol (c : Byte) (hn : c = LF ∨ c = CR) : decodeMap c = 0xff := by
  rcases hn with rfl | rfl <;> decide

theorem stripNewlines_cons_newline (c : Byte) (rest : List Byte) (hn : c = LF ∨ c = CR) :
    stripNewlines (c :: rest) = stripNewlines rest := by
  unfold stripNewlines
  rw [List.filter_cons, if_neg (by simp [hn])]

theorem stripNewlines_cons_other (c : Byte) (rest : List Byte) (hn : ¬ (c = LF ∨ c = CR)) :
    stripNewlines (c :: rest) = c :: stripNewlines rest := by
  unfold stripNewlines
  rw [List.filter_cons, if_pos (by simp [hn])]

theorem skipNewlines_strip (rest : List Byte) : ∀ (si : Nat),
    stripNewlines (skipNewlines rest si).1 = stripNewlines rest ∧
      (∀ c rest1, (skipNewlines rest si).1 = c :: rest1 → ¬ (c = LF ∨ c = CR)) := by
  induction rest with
  | nil => intro si; simp [skipNewlines]
  | cons a rest ih =>
    intro si
    rw [skipNewlines]
    by_cases ha : a = LF ∨ a = CR
    · rw [if_pos ha, stripNewlines_cons_newline a rest ha]
      exact ih (si + 1)
    · rw [if_neg ha]
      refine ⟨rfl, ?_⟩
      intro c rest1 h
      have hc : a = c := by
        have := congrArg List.head? h
        simpa using this
      rw [← hc]
      exact ha

theorem skipNewlines_nil (rest : List Byte) (si : Nat) (rest0 : List Byte) (si0 : Nat)
    (h : skipNewlines rest si = (rest0, si0)) (h0 : rest0 = []) : stripNewlines rest = [] := by
  have := (skipNewlines_strip rest si).1
  rw [h] at this
  subst h0
  simpa [stripNewlines] using this.symm

theorem skipNewlines_cons (rest : List Byte) (si : Nat) (c : Byte) (rest1 : List Byte)
    (si1 : Nat) (h : skipNewlines rest si = (c :: rest1, si1)) :
    stripNewlines rest = c :: stripNewlines rest1 := by
  have h1 := skipNewlines_strip rest si
  rw [h] at h1
  rw [← h1.1]
  exact stripNewlines_cons_other c rest1 (h1.2 c rest1 rfl)

theorem decodePadding_ok_iff (j d0 d1 d2 : Nat) (rest : List Byte) (si : Nat) :
    (decodePadding j d0 d1 d2 rest si).2 = none ↔
      (j = 2 ∧ stripNewlines rest = [padChar]) ∨ (3 ≤ j ∧ stripNewlines rest = []) := by
  unfold decodePadding
  split
  · simp
  · simp
  · cases h : skipNewlines rest si with
    | mk rest0 si0 =>
      cases rest0 with
      | nil =>
        have := skipNewlines_nil rest si [] si0 h rfl
        simp [this]
      | cons c rest1 =>
        have hs := skipNewlines_cons rest si c rest1 si0 h
        simp only [hs]
        by_cases hc : c = padChar
        · rw [if_neg (by simpa using hc)]
          cases h2 : skipNewlines rest1 (si0 + 1) with
          | mk rest2 si2 =>
            cases rest2 with
            | nil =>
              have := skipNewlines_nil rest1 (si0 + 1) [] si2 h2 rfl
              simp [this, hc]
            | cons c2 rest3 =>
              have := skipNewlines_cons rest1 (si0 + 1) c2 rest3 si2 h2
              simp [this]
        · rw [if_pos hc]
          simp [hc]
  · rename_i hj0 hj1 hj2
    have h0 : j ≠ 0 := hj0
    have h1 : j ≠ 1 := hj1
    have h2 : j ≠ 2 := hj2
    have hj : 3 ≤ j := by omega
    cases h : skipNewlines rest si with
    | mk rest0 si0 =>
      cases rest0 with
      | nil =>
        have := skipNewlines_nil rest si [] si0 h rfl
        exact ⟨fun _ => Or.inr ⟨hj, this⟩, fun _ => rfl⟩
      | cons c rest1 =>
        have hs := skipNewlines_cons rest si c rest1 si0 h
        simp only [hs]
        constructor
        · intro h0
          simp at h0
        · intro h0
          rcases h0 with ⟨h2', _⟩ | ⟨_, h3⟩
          · omega
          · simp at h3

theorem decodeLoop_symbol (c : Byte) (hc : decodeMap c ≠ 0xff) (rest : List Byte)
    (si j d0 d1 d2 : Nat) (acc : List Byte) (hj : j ≤ 2) :
    ∃ e0 e1 e2, decodeLoop (c :: rest) si j d0 d1 d2 acc =
      decodeLoop rest (si + 1) (j + 1) e0 e1 e2 acc := by
  rcases j with _ | _ | _ | j
  · exact ⟨_, _, _, by rw [decodeLoop, if_pos hc]⟩
  · exact ⟨_, _, _, by rw [decodeLoop, if_pos hc]⟩
  · exact ⟨_, _, _, by rw [decodeLoop, if_pos hc]⟩
  · omega

theorem decodeLoop_symbol_last (c : Byte) (hc : decodeMap c ≠ 0xff) (rest : List Byte)
    (si d0 d1 d2 : Nat) (acc : List Byte) :
    ∃ acc1, decodeLoop (c :: rest) si 3 d0 d1 d2 acc = decodeLoop rest (si + 1) 0 0 0 0 acc1 := by
  refine ⟨acc ++ quantumBytes 4 d0 d1 d2 (decodeMap c), ?_⟩
  rw [decodeLoop, if_pos hc] <;> omega

theorem decodeLoop_newline (c : Byte) (hn : c = LF ∨ c = CR) (rest : List Byte)
    (si j d0 d1 d2 : Nat) (acc : List Byte) :
    decodeLoop (c :: rest) si j d0 d1 d2 acc = decodeLoop rest (si + 1) j d0 d1 d2 acc := by
  rw [decodeLoop.eq_def]
  simp only []
  rw [if_neg (by rw [newline_not_symbol c hn]; simp), if_pos hn]

theorem decodeLoop_padChar (rest : List Byte) (si j d0 d1 d2 : Nat) (acc : List Byte) :
    (decodeLoop (padChar :: rest) si j d0 d1 d2 acc).2 =
      (decodePadding j d0 d1 d2 rest (si + 1)).2 := by
  have h1 : ¬ (padChar = LF ∨ padChar = CR) := by decide
  rw [decodeLoop.eq_def]
  simp only []
  rw [if_neg (by rw [decodeMap_padChar]; simp), if_neg h1, if_neg (by simp)]

theorem decodeLoop_foreignByte (c : Byte) (hf : foreignByte c) (rest : List Byte)
    (si j d0 d1 d2 : Nat) (acc : List Byte) :
    (decodeLoop (c :: rest) si j d0 d1 d2 acc).2 = some si := by
  rw [decodeLoop.eq_def]
  simp only []
  rw [if_neg (by rw [hf.1]; simp), if_neg (by simp [hf.2.1, hf.2.2.1]), if_pos hf.2.2.2]

theorem paddedShape_short (l : List Byte) (hne : l ≠ []) (hlen : l.length < 4) :
    paddedShape l = false := by
  rcases l with _ | ⟨a, _ | ⟨b, _ | ⟨c, _ | ⟨d, l⟩⟩⟩⟩
  · exact absurd rfl hne
  · rfl
  · rfl
  · rfl
  · simp only [List.length_cons] at hlen
    omega

theorem paddedShape_group (a b c d : Byte) (rest : List Byte) :
    paddedShape (a :: b :: c :: d :: rest) =
      (isSymbol a && isSymbol b &&
        ((isSymbol c && isSymbol d && paddedShape rest) ||
          (rest.isEmpty && d == padChar && (isSymbol c || c == padChar)))) := by
  rw [paddedShape]

theorem decodeLoop_ok_iff (src : List Byte) :
    ∀ (pre : List Byte) (si d0 d1 d2 : Nat) (acc : List Byte),
      pre.length ≤ 3 → (∀ c ∈ pre, isSymbol c = true) →
      ((decodeLoop src si pre.length d0 d1 d2 acc).2 = none ↔
        paddedShape (pre ++ stripNewlines src) = true) := by
  induction src with
  | nil =>
    intro pre si d0 d1 d2 acc hlen _
    rw [decodeLoop]
    rcases pre with _ | ⟨a, pre⟩
    · simp [stripNewlines, paddedShape]
    · have hs : paddedShape (a :: pre ++ stripNewlines []) = false :=
        paddedShape_short _ (by simp) (by simpa [stripNewlines] using (by omega : (a :: pre).length < 4))
      rw [hs]
      simp
  | cons c rest ih =>
    intro pre si d0 d1 d2 acc hlen hpre
    by_cases hsym : decodeMap c ≠ 0xff
    · have hnl : ¬ (c = LF ∨ c = CR) := fun hn => hsym (newline_not_symbol c hn)
      have hcs : isSymbol c = true := (isSymbol_iff c).mpr hsym
      rw [stripNewlines_cons_other c rest hnl]
      by_cases hj : pre.length ≤ 2
      · obtain ⟨e0, e1, e2, he⟩ := decodeLoop_symbol c hsym rest si pre.length d0 d1 d2 acc hj
        rw [he]
        have := ih (pre ++ [c]) (si + 1) e0 e1 e2 acc (by simp; omega) (by
          intro x hx
          rcases List.mem_append.mp hx with h | h
          · exact hpre x h
          · simp at h; rw [h]; exact hcs)
        simpa using this
      · have h3 : pre.length = 3 := by omega
        obtain ⟨x, y, z, rfl⟩ : ∃ x y z, pre = [x, y, z] := by
          rcases pre with _ | ⟨x, _ | ⟨y, _ | ⟨z, _ | ⟨w, l⟩⟩⟩⟩ <;> simp at h3
          exact ⟨x, y, z, rfl⟩
        obtain ⟨acc1, he⟩ := decodeLoop_symbol_last c hsym rest si d0 d1 d2 acc
        have hx : isSymbol x = true := hpre x (by simp)
        have hy : isSymbol y = true := hpre y (by simp)
        have hz : isSymbol z = true := hpre z (by simp)
        have hcp : (c == padChar) = false := by
          simp only [beq_eq_false_iff_ne]
          intro e
          rw [e, isSymbol_padChar] at hcs
          exact absurd hcs (by simp)
        show (decodeLoop (c :: rest) si 3 d0 d1 d2 acc).2 = none ↔ _
        rw [he]
        have := ih [] (si + 1) 0 0 0 acc1 (by simp) (by simp)
        simp only [List.length_nil, List.nil_append] at this
        rw [this]
        show _ ↔ paddedShape (x :: y :: z :: c :: stripNewlines rest) = true
        rw [paddedShape_group]
        simp [hx, hy, hz, hcs, hcp]
    · have hsym0 : decodeMap c = 0xff := by simpa using hsym
      have hcs : isSymbol c = false := by simp [isSymbol, hsym0]
      by_cases hnl : c = LF ∨ c = CR
      · rw [decodeLoop_newline c hnl, stripNewlines_cons_newline c rest hnl]
        exact ih pre (si + 1) d0 d1 d2 acc hlen hpre
      · rw [stripNewlines_cons_other c rest hnl]
        by_cases hp : c = padChar
        · subst hp
          rw [decodeLoop_padChar, decodePadding_ok_iff]
          rcases pre with _ | ⟨x, _ | ⟨y, _ | ⟨z, _ | ⟨w, l⟩⟩⟩⟩
          · rcases stripNewlines rest with _ | ⟨t1, _ | ⟨t2, _ | ⟨t3, T⟩⟩⟩ <;>
              simp [paddedShape, isSymbol_padChar]
          · rcases stripNewlines rest with _ | ⟨t1, _ | ⟨t2, T⟩⟩ <;>
              simp [paddedShape, isSymbol_padChar]
          · have hx : isSymbol x = true := hpre x (by simp)
            have hy : isSymbol y = true := hpre y (by simp)
            rcases stripNewlines rest with _ | ⟨t1, T⟩
            · simp [paddedShape]
            · simp [paddedShape, isSymbol_padChar, hx, hy]
              constructor
              · rintro ⟨rfl, rfl⟩; simp
              · intro h; exact ⟨h.2, by simpa using h.1⟩
          · have hx : isSymbol x = true := hpre x (by simp)
            have hy : isSymbol y = true := hpre y (by simp)
            have hz : isSymbol z = true := hpre z (by simp)
            simp [paddedShape, isSymbol_padChar, hx, hy, hz]
          · simp at hlen
        · have hf : foreignByte c := ⟨hsym0, fun e => hnl (Or.inl e), fun e => hnl (Or.inr e), hp⟩
          rw [decodeLoop_foreignByte c hf]
          have hcp : (c == padChar) = false := by simpa using hp
          have hs : paddedShape (pre ++ c :: stripNewlines rest) = false := by
            rcases pre with _ | ⟨x, _ | ⟨y, _ | ⟨z, _ | ⟨w, l⟩⟩⟩⟩
            · rcases stripNewlines rest with _ | ⟨t1, _ | ⟨t2, _ | ⟨t3, T⟩⟩⟩ <;>
                simp [paddedShape, hcs]
            · rcases stripNewlines rest with _ | ⟨t1, _ | ⟨t2, T⟩⟩ <;>
                simp [paddedShape, hcs]
            · rcases stripNewlines rest with _ | ⟨t1, T⟩ <;>
                simp [paddedShape, hcs, hcp]
            · simp [paddedShape, hcs, hcp]
            · simp at hlen
          rw [hs]
          simp

theorem DecodeString_ok_iff (s : List Byte) :
    (DecodeString s).2 = none ↔ paddedShape (stripNewlines s) = true := by
  have := decodeLoop_ok_iff s [] 0 0 0 0 [] (by simp) (by simp)
  simpa [DecodeString] using this

theorem paddedShape_length (l : List Byte) (h : paddedShape l = true) : l.length % 4 = 0 := by
  induction l using paddedShape.induct with
  | case1 => rfl
  | case2 a b c d rest ih =>
    rw [paddedShape_group] at h
    simp only [Bool.and_eq_true, Bool.or_eq_true] at h
    rcases h.2 with h1 | h1
    · have := ih h1.2
      simp only [List.length_cons]
      omega
    · have hr : rest = [] := by simpa using h1.1.1
      subst hr
      simp
  | case3 l h1 h2 =>
    have : paddedShape l = false := by
      rcases l with _ | ⟨a, _ | ⟨b, _ | ⟨c, _ | ⟨d, l⟩⟩⟩⟩
      · exact absurd rfl h1
      · rfl
      · rfl
      · rfl
      · exact absurd rfl (h2 a b c d l)
    rw [this] at h
    exact absurd h (by simp)

theorem paddedShape_Encode (b : List Byte) :
    paddedShape (stripNewlines (EncodeToString b)) = true :=
  (DecodeString_ok_iff _).mp (by rw [DecodeString_EncodeToString])

/-! ## Frames that do not decode -/

theorem skipNewlines_foreign (rest : List Byte) : ∀ (si : Nat),
    (∃ c ∈ rest, foreignByte c) →
    ∃ c1 rest1 si1, skipNewlines rest si = (c1 :: rest1, si1) ∧
      ((c1 = padChar ∧ ∃ c ∈ rest1, foreignByte c) ∨ c1 ≠ padChar) := by
  induction rest with
  | nil => intro si h; obtain ⟨c, hc, _⟩ := h; simp at hc
  | cons a rest ih =>
    intro si h
    obtain ⟨c, hc, hf⟩ := h
    rw [skipNewlines]
    by_cases ha : a = LF ∨ a = CR
    · rw [if_pos ha]
      have hca : c ≠ a := by
        intro e
        subst e
        rcases ha with e | e
        · exact hf.2.1 e
        · exact hf.2.2.1 e
      have hcr : c ∈ rest := by
        rcases List.mem_cons.mp hc with e | e
        · exact absurd e hca
        · exact e
      exact ih (si + 1) ⟨c, hcr, hf⟩
    · rw [if_neg ha]
      refine ⟨a, rest, si, rfl, ?_⟩
      by_cases hp : a = padChar
      · left
        refine ⟨hp, c, ?_, hf⟩
        rcases List.mem_cons.mp hc with e | e
        · exact absurd (e.trans hp) hf.2.2.2
        · exact e
      · right; exact hp

theorem decodePadding_foreign (j d0 d1 d2 : Nat) (rest : List Byte) (si : Nat)
    (h : ∃ c ∈ rest, foreignByte c) : (decodePadding j d0 d1 d2 rest si).2 ≠ none := by
  obtain ⟨c1, rest1, si1, hs, hrest⟩ := skipNewlines_foreign rest si h
  unfold decodePadding
  split
  · simp
  · simp
  · rw [hs]
    simp only []
    rcases hrest with ⟨hp, h1⟩ | hp
    · obtain ⟨c2, rest2, si2, hs2, _⟩ := skipNewlines_foreign rest1 (si1 + 1) h1
      rw [if_neg (by simpa using hp), hs2]
      simp
    · rw [if_pos hp]
      simp
  · rw [hs]
    simp

theorem decodeLoop_foreign (src : List Byte) : ∀ (si j d0 d1 d2 : Nat) (acc : List Byte),
    (∃ c ∈ src, foreignByte c) → (decodeLoop src si j d0 d1 d2 acc).2 ≠ none := by
  induction src with
  | nil => intro si j d0 d1 d2 acc h; obtain ⟨c, hc, _⟩ := h; simp at hc
  | cons a rest ih =>
    intro si j d0 d1 d2 acc h
    obtain ⟨c, hc, hf⟩ := h
    rw [decodeLoop.eq_def]
    simp only []
    by_cases hm : decodeMap a ≠ 0xff
    · have hcr : c ∈ rest := by
        rcases List.mem_cons.mp hc with e | e
        · exact absurd (e ▸ hf.1) hm
        · exact e
      rw [if_pos hm]
      split <;> exact ih _ _ _ _ _ _ ⟨c, hcr, hf⟩
    · rw [if_neg hm]
      by_cases hn : a = LF ∨ a = CR
      · rw [if_pos hn]
        have hcr : c ∈ rest := by
          rcases List.mem_cons.mp hc with e | e
          · subst e
            rcases hn with e | e
            · exact absurd e hf.2.1
            · exact absurd e hf.2.2.1
          · exact e
        exact ih _ _ _ _ _ _ ⟨c, hcr, hf⟩
      · rw [if_neg hn]
        by_cases hp : a ≠ padChar
        · rw [if_pos hp]; simp
        · rw [if_neg hp]
          have hcr : c ∈ rest := by
            rcases List.mem_cons.mp hc with e | e
            · subst e
              exact absurd hf.2.2.2 hp
            · exact e
          exact decodePadding_foreign j d0 d1 d2 rest (si + 1) ⟨c, hcr, hf⟩

theorem Encode_length (bs : List Byte) : (Encode bs).length % 4 = 0 := by
  induction bs using Encode.induct with
  | case1 a b c rest ih => rw [Encode]; simp only [List.length_cons]; omega
  | case2 a b => simp [Encode]
  | case3 a => simp [Encode]
  | case4 => simp [Encode]

theorem encodeSym_ne_padChar (x : Nat) (hx : x < 64) : encodeSym x ≠ padChar := by
  have key : ∀ k : Fin 64, encodeSym k.val ≠ padChar := by decide
  exact key ⟨x, hx⟩

theorem Encode_ne_QR (b : List Byte) : EncodeToString b ≠ ascii "QR==" := by
  have hone : ∀ a : Byte, Encode [a] ≠ [81, 82, padChar, padChar] := by
    intro a h
    rw [Encode] at h
    simp only [List.cons.injEq] at h
    have key : ∀ k : Fin 64, encodeSym k.val = 82 → k.val = 17 := by decide
    have h17 := key ⟨_, sextet_lt (a.val <<< 16) 12⟩ h.2.1
    simp only [sextet_eq, Nat.shiftLeft_eq] at h17
    norm_num at h17
    omega
  have hq : ascii "QR==" = [81, 82, padChar, padChar] := by decide
  rw [EncodeToString]
  rcases b with _ | ⟨a, _ | ⟨b, _ | ⟨c, rest⟩⟩⟩
  · decide
  · rw [hq]; exact hone a
  · rw [Encode, hq]
    intro h
    simp only [List.cons.injEq] at h
    exact encodeSym_ne_padChar _ (sextet_lt _ _) h.2.2.1
  · rw [Encode, hq]
    intro h
    simp only [List.cons.injEq] at h
    exact encodeSym_ne_padChar _ (sextet_lt _ _) h.2.2.1

/-- Claim C6, amended: `DecodeString` fails on exactly the frames whose text,
with the newline characters `'\r'` and `'\n'` removed, is not padded base64
(groups of four symbols of the alphabet, the last group possibly `XX==` or
`XXX=`); every output of the encoding is such text, and text whose length
without newline characters is not a multiple of four, or which holds a byte
that is neither a symbol nor `'='` nor a newline character, is not.  For every
inbound frame that is not padded base64 in this sense, `wsRead` reports that
decode error on `errChn`, has written only the bytes of the frames before it,
and reads no further frame. -/
theorem wsRead_decode_failure (pre : List (List Byte)) (bad : List Byte)
    (rest : List (List Byte)) (closeErr : ConnError)
    (hpre : ∀ f ∈ pre, (DecodeString f).2 = none) :
    ((DecodeString bad).2 ≠ none ↔ paddedShape (stripNewlines bad) = false) ∧
    (∀ b : List Byte, paddedShape (stripNewlines (EncodeToString b)) = true) ∧
    ((stripNewlines bad).length % 4 ≠ 0 → paddedShape (stripNewlines bad) = false) ∧
    ((∃ c ∈ bad, foreignByte c) → paddedShape (stripNewlines bad) = false) ∧
    (paddedShape (stripNewlines bad) = false →
      ∃ off, (DecodeString bad).2 = some off ∧
        wsRead (pre ++ bad :: rest) closeErr =
          { stdout := (pre.map (fun f => (DecodeString f).1)).flatten,
            reads := pre.length + 1,
            fin := .report (some (.decode off)) }) := by
  have hiff : (DecodeString bad).2 ≠ none ↔ paddedShape (stripNewlines bad) = false := by
    rw [Ne, DecodeString_ok_iff]
    simp
  refine ⟨hiff, paddedShape_Encode, fun hlen => ?_,
    fun hf => hiff.mp (decodeLoop_foreign bad 0 0 0 0 0 [] hf), fun hbad => ?_⟩
  · cases hs : paddedShape (stripNewlines bad) with
    | false => rfl
    | true => exact absurd (paddedShape_length _ hs) hlen
  obtain ⟨off, hoff⟩ := Option.ne_none_iff_exists'.mp (hiff.mpr hbad)
  refine ⟨off, hoff, ?_⟩
  have hsplit : DecodeString bad = ((DecodeString bad).1, some off) := by rw [← hoff]
  rw [wsRead, wsReadLoop_decoded _ pre _ _ _ _ hpre, wsReadLoop, hsplit]
  simp

/-- After the frame of `"A"`, the truncated frame `"QQ"`, the wrongly padded
frame `"QQ="` and the frame `"Q*=="` with a foreign byte: only `A` is
written and the frame of `"B"` is not read. -/
theorem wsRead_decode_failure_witness :
    (∃ off, (DecodeString (ascii "QQ")).2 = some off ∧
      wsRead ([EncodeToString (ascii "A")] ++ ascii "QQ" :: [EncodeToString (ascii "B")])
          (.closeError CloseNormalClosure) =
        { stdout := ([EncodeToString (ascii "A")].map (fun f => (DecodeString f).1)).flatten,
          reads := [EncodeToString (ascii "A")].length + 1,
          fin := .report (some (.decode off)) }) ∧
    (∃ off, (DecodeString (ascii "QQ=")).2 = some off ∧
      wsRead ([EncodeToString (ascii "A")] ++ ascii "QQ=" :: [EncodeToString (ascii "B")])
          (.closeError CloseNormalClosure) =
        { stdout := ([EncodeToString (ascii "A")].map (fun f => (DecodeString f).1)).flatten,
          reads := [EncodeToString (ascii "A")].length + 1,
          fin := .report (some (.decode off)) }) ∧
    (∃ off, (DecodeString (ascii "Q*==")).2 = some off ∧
      wsRead ([EncodeToString (ascii "A")] ++ ascii "Q*==" :: [EncodeToString (ascii "B")])
          (.closeError CloseNormalClosure) =
        { stdout := ([EncodeToString (ascii "A")].map (fun f => (DecodeString f).1)).flatten,
          reads := [EncodeToString (ascii "A")].length + 1,
          fin := .report (some (.decode off)) }) :=
  ⟨(wsRead_decode_failure [EncodeToString (ascii "A")] (ascii "QQ")
      [EncodeToString (ascii "B")] (.closeError CloseNormalClosure) (by decide)).2.2.2.2 (by decide),
    (wsRead_decode_failure [EncodeToString (ascii "A")] (ascii "QQ=")
      [EncodeToString (ascii "B")] (.closeError CloseNormalClosure) (by decide)).2.2.2.2 (by decide),
    (wsRead_decode_failure [EncodeToString (ascii "A")] (ascii "Q*==")
      [EncodeToString (ascii "B")] (.closeError CloseNormalClosure) (by decide)).2.2.2.2 (by decide)⟩

/-- Claim C6 is false as stated: the frame `"QQ==\n"`, with a newline, and
the frame `"QR=="`, with a non-zero unused bit, are the encoding of no byte
sequence, yet `DecodeString` accepts both as `"A"`, and `wsRead` writes that
byte and goes on to the next frame. -/
theorem wsRead_accepts_non_canonical_frame :
    (∀ b : List Byte, EncodeToString b ≠ ascii "QQ==\n") ∧
      DecodeString (ascii "QQ==\n") = (ascii "A", none) ∧
      wsRead [ascii "QQ==\n", EncodeToString (ascii "0\n")] (.closeError CloseNormalClosure) =
        { stdout := ascii "A0\n", reads := 3, fin := .report none } ∧
      (∀ b : List Byte, EncodeToString b ≠ ascii "QR==") ∧
      DecodeString (ascii "QR==") = (ascii "A", none) ∧
      wsRead [ascii "QR==", EncodeToString (ascii "0\n")] (.closeError CloseNormalClosure) =
        { stdout := ascii "A0\n", reads := 3, fin := .report none } := by
  refine ⟨fun b hb => ?_, by decide, by decide, Encode_ne_QR, by decide, by decide⟩
  have h := Encode_length b
  rw [EncodeToString] at hb
  rw [hb] at h
  revert h
  decide

/-! ## The outbound flow -/

theorem wsWriteLoop_sent (send : Nat → Option ConnError) (stdinEnd : StdinEnd)
    (pre : List Byte) : ∀ (rest : List Byte) (sent : List (List Byte)),
    (∀ i, i < pre.length → send (sent.length + i) = none) →
    wsWriteLoop send stdinEnd (pre ++ rest) sent =
      wsWriteLoop send stdinEnd rest (sent ++ pre.map (fun key => EncodeToString [key])) := by
  induction pre with
  | nil => intro rest sent _; simp
  | cons key pre ih =>
    intro rest sent h
    have h0 : send sent.length = none := by simpa using h 0 (by simp)
    rw [List.cons_append, wsWriteLoop]
    simp only [h0]
    rw [ih rest _ (by
      intro i hi
      have := h (i + 1) (by simpa using hi)
      simpa [Nat.add_assoc, Nat.add_comm 1 i] using this)]
    simp

/-- Claim C7, amended: when the send number `k` of the outbound flow is the
first to fail, with error `e`, after `k` frames sent: if `e` is a normal
closure the flow sends `nil` on `errChn`, the value `Run` takes for a clean
end, and returns; if `e` is any other error the flow sends `e` on `errChn` and
returns. -/
theorem wsWrite_send_failure (send : Nat → Option ConnError) (stdin : List Byte)
    (stdinEnd : StdinEnd) (k : Nat) (e : ConnError)
    (hk : k < stdin.length) (hok : ∀ i, i < k → send i = none) (hfail : send k = some e) :
    wsWrite send stdin stdinEnd =
      { sent := (stdin.take k).map (fun key => EncodeToString [key]),
        fin := if IsCloseError e [CloseNormalClosure] then .report none
               else .report (some (.conn e)) } := by
  have hlen : (stdin.take k).length = k := by
    rw [List.length_take]; omega
  obtain ⟨key, rest, hdrop⟩ : ∃ key rest, stdin.drop k = key :: rest := by
    cases hd : stdin.drop k with
    | nil =>
      have := congrArg List.length hd
      rw [List.length_drop] at this
      simp at this
      omega
    | cons key rest => exact ⟨key, rest, rfl⟩
  have hloop : wsWriteLoop send stdinEnd (stdin.take k ++ stdin.drop k) [] =
      wsWriteLoop send stdinEnd (stdin.drop k)
        ([] ++ (stdin.take k).map (fun key => EncodeToString [key])) :=
    wsWriteLoop_sent send stdinEnd (stdin.take k) (stdin.drop k) []
      (by intro i hi; rw [hlen] at hi; simpa using hok i hi)
  rw [List.take_append_drop, List.nil_append] at hloop
  rw [wsWrite, hloop, hdrop, wsWriteLoop]
  have hl : ((stdin.take k).map (fun key => EncodeToString [key])).length = k := by
    rw [List.length_map, hlen]
  simp only [hl, hfail]
  by_cases hc : IsCloseError e [CloseNormalClosure] = true
  · rw [if_pos hc, if_pos hc]
  · rw [if_neg hc, if_neg hc]

/-- The second send fails, with a normal closure and with another error. -/
theorem wsWrite_send_failure_witness :
    wsWrite (fun i => if i = 1 then some (.closeError CloseNormalClosure) else none)
        (ascii "abc") .eof =
      { sent := ((ascii "abc").take 1).map (fun key => EncodeToString [key]),
        fin := if IsCloseError (.closeError CloseNormalClosure) [CloseNormalClosure]
               then .report none
               else .report (some (.conn (.closeError CloseNormalClosure))) } ∧
    wsWrite (fun i => if i = 1 then some (.other 7) else none) (ascii "abc") .eof =
      { sent := ((ascii "abc").take 1).map (fun key => EncodeToString [key]),
        fin := if IsCloseError (.other 7) [CloseNormalClosure] then .report none
               else .report (some (.conn (.other 7))) } :=
  ⟨wsWrite_send_failure _ (ascii "abc") .eof 1 (.closeError CloseNormalClosure)
      (by decide) (by intro i hi; simp; omega) (by simp),
    wsWrite_send_failure _ (ascii "abc") .eof 1 (.other 7)
      (by decide) (by intro i hi; simp; omega) (by simp)⟩

/-- Claim C7 is false as stated: when the first send fails with a normal
closure the outbound flow does not end silently, it sends `nil` on `errChn`,
and a `Run` that receives this value ends the process with status 0. -/
theorem wsWrite_reports_nil_on_normal_closure :
    wsWrite (fun _ => some (.closeError CloseNormalClosure)) (ascii "x") .eof =
        { sent := [], fin := .report none } ∧
      WriteEnd.report none ≠ WriteEnd.silent ∧
      (Run ⟨true, fun m => m + 1, false⟩ 0 (.report none)).status = 0 := by
  decide

/-- Claim C8: for every finite local input followed by end-of-input, if every
send succeeds the outbound flow sends exactly one frame per input byte, in
order, each the encoding of that one byte, and ends without a send on
`errChn`. -/
theorem wsWrite_one_frame_per_byte (send : Nat → Option ConnError) (stdin : List Byte)
    (hok : ∀ k, send k = none) :
    wsWrite send stdin .eof =
      { sent := stdin.map (fun key => EncodeToString [key]), fin := .silent } := by
  have h := wsWriteLoop_sent send .eof stdin [] [] (fun i _ => hok _)
  rw [List.append_nil] at h
  rw [wsWrite, h, wsWriteLoop]
  simp

/-- The input `"ls\n"`: three frames, `"bA=="`, `"cw=="` and `"Cg=="`. -/
theorem wsWrite_one_frame_per_byte_witness :
    wsWrite (fun _ => none) (ascii "ls\n") .eof =
        { sent := (ascii "ls\n").map (fun key => EncodeToString [key]), fin := .silent } ∧
      (ascii "ls\n").map (fun key => EncodeToString [key])
        = [ascii "bA==", ascii "cw==", ascii "Cg=="] :=
  ⟨wsWrite_one_frame_per_byte (fun _ => none) (ascii "ls\n") (fun _ => rfl), by decide⟩

/-! ## The rendezvous on `errChn` -/

theorem trySend_received (f : Flow) (s : ChanState) (v : Option SessionErr)
    (h : s.run = .received v) : trySend f s = none := by
  unfold trySend
  rw [h]

theorem schedule_received (sched : List Flow) : ∀ (s : ChanState) (v : Option SessionErr),
    s.run = .received v → schedule sched s = s := by
  induction sched with
  | nil => intro s v _; rfl
  | cons f rest ih =>
    intro s v h
    rw [schedule, trySend_received f s v h]
    exact ih s v h

/-- Claim C9, amended: when both flows are at a send on `errChn` and `Run`
waits at its receive, then after any schedule that lets a flow `f` try first,
`Run` has received the value of `f` and only that one, `f` is past its send,
and the other flow is still at its send, which cannot complete: it stays
blocked, whatever is scheduled afterwards, and the value `Run` received is not
altered. -/
theorem errChn_first_send_only (v1 v2 : Option SessionErr) (f : Flow) (rest : List Flow) :
    (schedule (f :: rest) ⟨.sending v1, .sending v2, .waiting⟩).run
        = .received (match f with | .inbound => v1 | .outbound => v2) ∧
      (schedule (f :: rest) ⟨.sending v1, .sending v2, .waiting⟩).sender f = .done ∧
      (schedule (f :: rest) ⟨.sending v1, .sending v2, .waiting⟩).sender f.other
        = .sending (match f with | .inbound => v2 | .outbound => v1) ∧
      trySend f.other (schedule (f :: rest) ⟨.sending v1, .sending v2, .waiting⟩) = none := by
  cases f with
  | inbound =>
    have h : schedule (Flow.inbound :: rest) ⟨.sending v1, .sending v2, .waiting⟩
        = ⟨.done, .sending v2, .received v1⟩ := by
      rw [schedule]
      exact schedule_received rest _ v1 rfl
    rw [h]
    exact ⟨rfl, rfl, rfl, rfl⟩
  | outbound =>
    have h : schedule (Flow.outbound :: rest) ⟨.sending v1, .sending v2, .waiting⟩
        = ⟨.sending v1, .done, .received v2⟩ := by
      rw [schedule]
      exact schedule_received rest _ v2 rfl
    rw [h]
    exact ⟨rfl, rfl, rfl, rfl⟩

/-- Claim C9 is false as stated: once `Run` has received the report of the
inbound flow, the send of the outbound flow cannot complete, and after being
scheduled again it is still at its send: the second report blocks. -/
theorem errChn_second_send_blocks :
    trySend .outbound (schedule [.inbound] ⟨.sending none, .sending none, .waiting⟩) = none ∧
      (schedule [.inbound, .outbound, .outbound] ⟨.sending none, .sending none, .waiting⟩).outbound
        = .sending none := by
  decide

/-! ## `formatUrl` on the documented forms of the url -/

/-- Claim C10 fails on the code: for the url `https://rancher.server/v1` of
the usage text, with or without a trailing slash, `formatUrl` appends a second
`/v1`, so the listing request of `containerUrl` goes to
`https://rancher.server/v1/v1/containers/`; the form with `/v1/projects/xxxx`
is left as it is. -/
theorem formatUrl_doubles_v1 :
    formatUrl (ascii "https://rancher.server/v1") = some (ascii "https://rancher.server/v1/v1") ∧
      formatUrl (ascii "https://rancher.server/v1/")
        = some (ascii "https://rancher.server/v1/v1") ∧
      containerListUrl (ascii "https://rancher.server/v1")
        = some (ascii "https://rancher.server/v1/v1/containers/") ∧
      formatUrl (ascii "https://rancher.server/v1/projects/xxxx")
        = some (ascii "https://rancher.server/v1/projects/xxxx") := by
  decide

end RancherExec
